import Mathlib

/-!
Shallow embedding of the save-state persistence subsystem of `src/player.ts`
(rom-scout). Byte payloads are `List Nat` (each element a byte value),
timestamps are `Int` (millisecond clock values are passed in explicitly as a
`now` parameter wherever the source calls `Date.now()`), and the IndexedDB
store is a map from identity key to an optional raw record. JavaScript 32-bit
bitwise arithmetic is modelled on `Nat` with explicit `% 2 ^ 32` bounds kept
as invariant lemmas.
-/

namespace RomScout

/-! ## CRC-32 (`computeCrc32` in `player.ts`)

The source builds the standard CRC-32 table (polynomial `0xEDB88320`), folds
it over the bytes starting from `0xFFFFFFFF`, finalises with xor, and renders
the value as an 8-character upper-case hex string via
`toString(16).padStart(8, '0').toUpperCase()`. -/

/-- One inner-loop step of the CRC table construction:
`crc = (crc & 1) ? (0xEDB88320 ^ (crc >>> 1)) : (crc >>> 1)`. -/
def crcStep (crc : Nat) : Nat :=
  if crc % 2 = 1 then Nat.xor 0xEDB88320 (crc / 2) else crc / 2

/-- `crcTable[i]`: eight iterations of `crcStep` on `i`. -/
def crcTableEntry (i : Nat) : Nat :=
  crcStep (crcStep (crcStep (crcStep (crcStep (crcStep (crcStep (crcStep i)))))))

/-- One byte of the main loop:
`crc = crcTable[(crc ^ data[i]) & 0xFF] ^ (crc >>> 8)`. -/
def crc32Update (crc b : Nat) : Nat :=
  Nat.xor (crcTableEntry (Nat.xor crc b % 256)) (crc / 256)

/-- The main loop over the byte list. -/
def crc32Loop : Nat → List Nat → Nat
  | crc, [] => crc
  | crc, b :: rest => crc32Loop (crc32Update crc b) rest

/-- The finalised CRC-32 value: start at `0xFFFFFFFF`, loop, xor-out. -/
def crc32Val (data : List Nat) : Nat :=
  Nat.xor (crc32Loop 0xFFFFFFFF data) 0xFFFFFFFF

/-- Upper-case hexadecimal digit character for `d < 16`
(the source produces lower case and then applies `toUpperCase`). -/
def hexChar (d : Nat) : Char :=
  if d < 10 then Char.ofNat (48 + d) else Char.ofNat (55 + d)

/-- Hexadecimal digit list of `n`, most significant first; `[ '0' ]` for 0,
mirroring JavaScript `Number.prototype.toString(16)` on naturals. -/
def hexDigits (n : Nat) : List Char :=
  if _h : n < 16 then [hexChar n]
  else hexDigits (n / 16) ++ [hexChar (n % 16)]
  decreasing_by exact Nat.div_lt_self (by omega) (by omega)

/-- `padStart(8, '0')` applied to the hex digits of `n`. -/
def toHex8 (n : Nat) : String :=
  ⟨List.replicate (8 - (hexDigits n).length) '0' ++ hexDigits n⟩

/-- `computeCrc32` from the source: CRC-32 over the bytes, rendered as an
8-character zero-padded upper-case hex string. -/
def computeCrc32 (data : List Nat) : String :=
  toHex8 (crc32Val data)

/-- A character is an upper-case hexadecimal digit. -/
def isUpperHexDigit (c : Char) : Prop :=
  ('0' ≤ c ∧ c ≤ '9') ∨ ('A' ≤ c ∧ c ≤ 'F')

/-! ### Range invariants for the CRC computation -/

theorem crcStep_lt (crc : Nat) (h : crc < 2 ^ 32) : crcStep crc < 2 ^ 32 := by
  unfold crcStep
  split
  · exact Nat.xor_lt_two_pow (by norm_num) (by omega)
  · omega

theorem crcTableEntry_lt (i : Nat) (h : i < 2 ^ 32) : crcTableEntry i < 2 ^ 32 := by
  unfold crcTableEntry
  iterate 8 apply crcStep_lt
  exact h

theorem crc32Update_lt (crc b : Nat) (h : crc < 2 ^ 32) : crc32Update crc b < 2 ^ 32 := by
  unfold crc32Update
  exact Nat.xor_lt_two_pow (crcTableEntry_lt _ (by have := Nat.mod_lt (Nat.xor crc b) (show 0 < 256 by norm_num); omega)) (by omega)

theorem crc32Loop_lt (data : List Nat) (crc : Nat) (h : crc < 2 ^ 32) :
    crc32Loop crc data < 2 ^ 32 := by
  induction data generalizing crc with
  | nil => exact h
  | cons b rest ih => exact ih _ (crc32Update_lt crc b h)

theorem crc32Val_lt (data : List Nat) : crc32Val data < 2 ^ 32 := by
  unfold crc32Val
  exact Nat.xor_lt_two_pow (crc32Loop_lt data _ (by norm_num)) (by norm_num)

/-! ### The hex rendering of a value below `2 ^ 32` has exactly 8 characters -/

theorem hexDigits_length_le (k : Nat) (hk : 1 ≤ k) :
    ∀ n, n < 16 ^ k → (hexDigits n).length ≤ k := by
  induction k with
  | zero => omega
  | succ k ih =>
    intro n hn
    rw [hexDigits]
    split
    · simp
    · rename_i hbig
      have hk1 : 1 ≤ k := by
        by_contra hcon
        have : k = 0 := by omega
        subst this
        simp at hn
        omega
      have hdiv : n / 16 < 16 ^ k := by
        have : n < 16 * 16 ^ k := by
          have : 16 ^ (k + 1) = 16 * 16 ^ k := by ring
          omega
        omega
      have := ih hk1 (n / 16) hdiv
      simp only [List.length_append, List.length_cons, List.length_nil]
      omega

theorem toHex8_length (n : Nat) (h : n < 2 ^ 32) : (toHex8 n).length = 8 := by
  have h16 : n < 16 ^ 8 := by norm_num at h ⊢; omega
  have hle := hexDigits_length_le 8 (by norm_num) n h16
  simp only [toHex8, String.length, List.length_append, List.length_replicate]
  omega

theorem computeCrc32_length (data : List Nat) : (computeCrc32 data).length = 8 :=
  toHex8_length _ (crc32Val_lt data)

theorem hexChar_isUpperHexDigit (d : Nat) (h : d < 16) : isUpperHexDigit (hexChar d) := by
  interval_cases d <;> simp [hexChar, isUpperHexDigit]

theorem hexDigits_all_hex (n : Nat) : ∀ c ∈ hexDigits n, isUpperHexDigit c := by
  induction n using Nat.strong_induction_on with
  | _ n ih =>
    intro c hc
    rw [hexDigits] at hc
    split at hc
    · rename_i h
      simp at hc
      subst hc
      exact hexChar_isUpperHexDigit n h
    · rename_i h
      rw [List.mem_append] at hc
      rcases hc with hc | hc
      · exact ih (n / 16) (Nat.div_lt_self (by omega) (by omega)) c hc
      · simp at hc
        subst hc
        exact hexChar_isUpperHexDigit _ (Nat.mod_lt n (by norm_num))

theorem computeCrc32_all_hex (data : List Nat) :
    ∀ c ∈ (computeCrc32 data).data, isUpperHexDigit c := by
  intro c hc
  simp only [computeCrc32, toHex8] at hc
  rw [List.mem_append] at hc
  rcases hc with hc | hc
  · have := List.eq_of_mem_replicate hc
    subst this
    left
    constructor <;> decide
  · exact hexDigits_all_hex _ c hc

/-! ## Data model of the persisted records

`PersistedSaveState` mirrors the stored shape
`{ data, updatedAt, crc32, isAutoSave? }` (the `isAutoSave` field is optional
in the TypeScript interface, hence `Option Bool`). A stored value under one
identity key is either the current multi-save record `{ saves: [...] }`, a
legacy bare `ArrayBuffer`, or a legacy `{ data, updatedAt? }` object; the
legacy object's `data` may be absent and its `updatedAt` may be missing or
non-finite, modelled as `Option`. -/

structure PersistedSaveState where
  data : List Nat
  updatedAt : Int
  crc32 : String
  isAutoSave : Option Bool
deriving DecidableEq

/-- Raw on-disk record shapes distinguished by structural probing in
`readPersistedSaves`. -/
inductive RawRecord where
  | multi (saves : List PersistedSaveState)
  | legacyBuffer (data : List Nat)
  | legacyObj (data : Option (List Nat)) (updatedAt : Option Int)
deriving DecidableEq

/-- In-memory decoded save (`StoredSaveData` in the source): `updatedAt` is
`number | null` there, hence `Option Int`. -/
structure StoredSaveData where
  data : List Nat
  updatedAt : Option Int
  crc32 : String
  isAutoSave : Bool
deriving DecidableEq

/-- The IndexedDB object store, keyed by identity string. -/
def Store := String → Option RawRecord

/-- The decode half of `readPersistedSaves`: the multi-save format is mapped
element-wise (`isAutoSave ?? false`); a legacy record becomes a one-element
list with a freshly computed checksum and `updatedAt ?? Date.now()`
(`now` stands for `Date.now()`); anything unconvertible decodes to `[]`. -/
def decodeRecord (now : Int) : Option RawRecord → List StoredSaveData
  | none => []
  | some (.multi saves) =>
      saves.map fun s => ⟨s.data, some s.updatedAt, s.crc32, s.isAutoSave.getD false⟩
  | some (.legacyBuffer data) => [⟨data, some now, computeCrc32 data, false⟩]
  | some (.legacyObj none _) => []
  | some (.legacyObj (some data) u) =>
      [⟨data, some (u.getD now), computeCrc32 data, false⟩]

/-- `readPersistedSaves(romId)`: a read-only transaction; returns the decoded
save list together with the (unchanged) store, making the frame effect
explicit. -/
def readPersistedSaves (now : Int) (store : Store) (romId : String) :
    List StoredSaveData × Store :=
  (decodeRecord now (store romId), store)

/-- The sort comparator `(a, b) => b.updatedAt - a.updatedAt` used on write:
`a` may precede `b` exactly when the comparator is `≤ 0`. -/
def saveLe (a b : PersistedSaveState) : Bool :=
  b.updatedAt ≤ a.updatedAt

/-- `existingRecord?.saves ?? []`: the save list currently stored under a key
(legacy shapes have no `saves` field and read as `[]` here). -/
def existingSavesOf (store : Store) (romId : String) : List PersistedSaveState :=
  match store romId with
  | some (.multi saves) => saves
  | _ => []

/-- `writePersistedSave(romId, data, createNewState, isAutoSave)`: `data = none`
deletes the key; otherwise the new save (timestamped `now`, checksum freshly
computed) is prepended (`createNewState`) or replaces slot 0, and the result is
sorted most-recent-first before being put back. -/
def writePersistedSave (now : Int) (store : Store) (romId : String)
    (data : Option (List Nat)) (createNewState : Bool) (isAutoSave : Bool) : Store :=
  match data with
  | none => fun k => if k = romId then none else store k
  | some d =>
    let existingSaves := existingSavesOf store romId
    let newSave : PersistedSaveState := ⟨d, now, computeCrc32 d, some isAutoSave⟩
    let updatedSaves : List PersistedSaveState :=
      if createNewState then
        newSave :: existingSaves
      else
        match existingSaves with
        | [] => [newSave]
        | _ :: tail => newSave :: tail
    let sortedSaves := updatedSaves.mergeSort saveLe
    fun k => if k = romId then some (.multi sortedSaves) else store k

/-! ### Comparator facts and a stability lemma for `mergeSort` -/

theorem saveLe_trans : ∀ a b c : PersistedSaveState,
    saveLe a b → saveLe b c → saveLe a c := by
  intro a b c hab hbc
  simp only [saveLe, decide_eq_true_eq] at *
  omega

theorem saveLe_total : ∀ a b : PersistedSaveState, saveLe a b || saveLe b a := by
  intro a b
  simp only [saveLe, Bool.or_eq_true, decide_eq_true_eq]
  omega

/-- A stable sort keeps a leftmost element that is `le`-below the rest at the
head. -/
theorem mergeSort_cons_of_min {α : Type} {le : α → α → Bool}
    (trans : ∀ a b c, le a b → le b c → le a c)
    (total : ∀ a b, le a b || le b a)
    (a : α) (l : List α) (h : ∀ b ∈ l, le a b) :
    (a :: l).mergeSort le = a :: l.mergeSort le := by
  obtain ⟨l₁, l₂, h1, h2, h3⟩ := List.mergeSort_cons trans total a l
  have hl₁ : l₁ = [] := by
    cases l₁ with
    | nil => rfl
    | cons x xs =>
      exfalso
      have hx : x ∈ l.mergeSort le := by
        rw [h2]
        exact List.mem_append_left _ (List.mem_cons_self x xs)
      have hxl : x ∈ l := List.mem_mergeSort.mp hx
      have h3x := h3 x (List.mem_cons_self x xs)
      have hax := h x hxl
      simp [hax] at h3x
  subst hl₁
  simp only [List.nil_append] at h1 h2
  rw [h1, h2]

/-- The record just written by `writePersistedSave` has the new save at
slot 0, provided the clock did not run backwards relative to the existing
entries. -/
theorem writePersistedSave_head (now : Int) (store : Store) (romId : String)
    (d : List Nat) (createNew isAuto : Bool)
    (hmono : ∀ s ∈ existingSavesOf store romId, s.updatedAt ≤ now) :
    ∃ rest, (writePersistedSave now store romId (some d) createNew isAuto) romId
      = some (.multi (⟨d, now, computeCrc32 d, some isAuto⟩ :: rest)) := by
  set newSave : PersistedSaveState := ⟨d, now, computeCrc32 d, some isAuto⟩ with hns
  have hbranch : ∃ l0,
      ((writePersistedSave now store romId (some d) createNew isAuto) romId
        = some (.multi ((newSave :: l0).mergeSort saveLe)))
      ∧ ∀ b ∈ l0, saveLe newSave b := by
    cases createNew with
    | true =>
      refine ⟨existingSavesOf store romId, ?_,
        fun b hb => by simp only [saveLe, hns, decide_eq_true_eq]; exact hmono b hb⟩
      simp [writePersistedSave]
    | false =>
      cases hex : existingSavesOf store romId with
      | nil =>
        refine ⟨[], ?_, by simp⟩
        simp [writePersistedSave, hex]
      | cons s0 tl =>
        refine ⟨tl, ?_, fun b hb => by
          simp only [saveLe, hns, decide_eq_true_eq]
          exact hmono b (hex ▸ List.mem_cons_of_mem s0 hb)⟩
        simp [writePersistedSave, hex]
  obtain ⟨l0, hl0, hb0⟩ := hbranch
  exact ⟨l0.mergeSort saveLe, by
    rw [hl0, mergeSort_cons_of_min saveLe_trans saveLe_total _ _ hb0]⟩

/-- Decoding the multi-save shape maps element-wise. -/
theorem decodeRecord_multi (now : Int) (saves : List PersistedSaveState) :
    decodeRecord now (some (.multi saves))
      = saves.map fun s => ⟨s.data, some s.updatedAt, s.crc32, s.isAutoSave.getD false⟩ :=
  rfl

/-- Writing under one key leaves every other key of the store untouched. -/
theorem writePersistedSave_apply_ne (now : Int) (st : Store) (k k2 : String)
    (data : Option (List Nat)) (cn auto : Bool) (hne : k ≠ k2) :
    (writePersistedSave now st k2 data cn auto) k = st k := by
  cases data <;> simp [writePersistedSave, hne]

/-- The record a write produces under its own key depends only on what that
key held before. -/
theorem writePersistedSave_apply_congr (now : Int) (st st2 : Store) (k : String)
    (d : List Nat) (cn auto : Bool) (hagree : st k = st2 k) :
    (writePersistedSave now st k (some d) cn auto) k
      = (writePersistedSave now st2 k (some d) cn auto) k := by
  simp [writePersistedSave, existingSavesOf, hagree]

/-- A fan-out write over keys not containing `k` leaves `k` untouched. -/
theorem foldl_write_not_mem (now : Int) (d : List Nat) (cn auto : Bool) :
    ∀ (keys : List String) (acc : Store) (k : String), k ∉ keys →
    (keys.foldl (fun st k2 => writePersistedSave now st k2 (some d) cn auto) acc) k = acc k := by
  intro keys
  induction keys with
  | nil => intro acc k _; rfl
  | cons k2 rest ih =>
    intro acc k hk
    simp only [List.foldl_cons]
    rw [ih _ k (fun h => hk (List.mem_cons_of_mem _ h))]
    exact writePersistedSave_apply_ne now acc k k2 (some d) cn auto
      (fun h => hk (h ▸ List.mem_cons_self _ _))

/-- Fan-out write over deduplicated keys: each member key ends up holding
exactly the single-key write applied to its previous contents. -/
theorem foldl_write_apply (now : Int) (d : List Nat) (cn auto : Bool) :
    ∀ (keys : List String) (store acc : Store) (k : String), k ∈ keys → keys.Nodup →
    acc k = store k →
    (keys.foldl (fun st k2 => writePersistedSave now st k2 (some d) cn auto) acc) k
      = (writePersistedSave now store k (some d) cn auto) k := by
  intro keys
  induction keys with
  | nil => intro _ _ k hk _ _; cases hk
  | cons k2 rest ih =>
    intro store acc k hk hnd hagree
    simp only [List.foldl_cons]
    rcases List.mem_cons.mp hk with rfl | hmem
    · have hkrest : k ∉ rest := (List.nodup_cons.mp hnd).1
      rw [foldl_write_not_mem now d cn auto rest _ k hkrest]
      exact writePersistedSave_apply_congr now acc store k d cn auto hagree
    · have hstep : (writePersistedSave now acc k2 (some d) cn auto) k = acc k := by
        have hne : k ≠ k2 := by
          rintro rfl
          exact (List.nodup_cons.mp hnd).1 hmem
        exact writePersistedSave_apply_ne now acc k k2 (some d) cn auto hne
      exact ih store _ k hmem (List.nodup_cons.mp hnd).2 (hstep.trans hagree)

/-- `isAutoSave = reason === 'destroy'` as computed by `persistState`. -/
def isAutoSaveFor (reason : String) : Bool := reason == "destroy"

/-- `persistState(reason, createNew)`. The engine interaction (emulator and
game-manager presence, `getState` not throwing, payload extraction from
possibly wrapped shapes) is abstracted into `capture`: `none` when no payload
was captured, in which case nothing is written and `false` is returned. An
empty payload is likewise skipped. Otherwise the payload is written to every
persistence key with `isAutoSave = (reason === 'destroy')` and `true` is
returned. -/
def persistStateModel (now : Int) (store : Store) (keys : List String)
    (capture : Option (List Nat)) (reason : String) (createNew : Bool) :
    Bool × Store :=
  match capture with
  | none => (false, store)
  | some [] => (false, store)
  | some (b :: bs) =>
    (true, keys.foldl (fun st k =>
      writePersistedSave now st k (some (b :: bs)) createNew (isAutoSaveFor reason)) store)

/-- After `persistState` fans a captured payload out over deduplicated keys,
each written key decodes with the fresh save at slot 0. -/
theorem persistState_head (now now2 : Int) (store : Store) (keys : List String)
    (k : String) (b : Nat) (bs : List Nat) (reason : String) (createNew : Bool)
    (hk : k ∈ keys) (hnd : keys.Nodup)
    (hmono : ∀ s ∈ existingSavesOf store k, s.updatedAt ≤ now) :
    ∃ rest,
      (readPersistedSaves now2
          (persistStateModel now store keys (some (b :: bs)) reason createNew).2 k).1
        = ⟨b :: bs, some now, computeCrc32 (b :: bs), isAutoSaveFor reason⟩ :: rest := by
  have hfold := foldl_write_apply now (b :: bs) createNew (isAutoSaveFor reason)
    keys store store k hk hnd rfl
  obtain ⟨rest, hw⟩ := writePersistedSave_head now store k (b :: bs) createNew
    (isAutoSaveFor reason) hmono
  refine ⟨rest.map (fun s => ⟨s.data, some s.updatedAt, s.crc32, s.isAutoSave.getD false⟩), ?_⟩
  simp only [persistStateModel, readPersistedSaves]
  rw [hfold, hw]
  simp [decodeRecord]

/-! ## Claim theorems: write/read layer -/

/-- C1: for every non-empty byte payload `P` and every identity key, writing
`P` via `writePersistedSave` and then reading that key back yields a record
whose first SaveState has `data = P` and checksum `computeCrc32 P`, an
8-hex-character string (assuming the wall clock did not run backwards relative
to the existing entries of that key). -/
theorem c1_write_read_roundtrip (now now2 : Int) (store : Store) (romId : String)
    (P : List Nat) (createNew isAuto : Bool) (hP : P ≠ [])
    (hmono : ∀ s ∈ existingSavesOf store romId, s.updatedAt ≤ now) :
    ∃ rest,
      (readPersistedSaves now2
          (writePersistedSave now store romId (some P) createNew isAuto) romId).1
        = ⟨P, some now, computeCrc32 P, isAuto⟩ :: rest
      ∧ (computeCrc32 P).length = 8
      ∧ ∀ c ∈ (computeCrc32 P).data, isUpperHexDigit c := by
  obtain ⟨rest, hw⟩ := writePersistedSave_head now store romId P createNew isAuto hmono
  refine ⟨rest.map (fun s => ⟨s.data, some s.updatedAt, s.crc32, s.isAutoSave.getD false⟩),
    ?_, computeCrc32_length P, computeCrc32_all_hex P⟩
  simp [readPersistedSaves, hw, decodeRecord]

/-- Witness for C1 at a concrete payload, key and store. -/
theorem c1_witness :
    ([1, 2, 3] : List Nat) ≠ []
    ∧ ∃ rest,
      (readPersistedSaves 200
          (writePersistedSave 100 (fun _ => none) "k" (some [1, 2, 3]) false false) "k").1
        = ⟨[1, 2, 3], some 100, computeCrc32 [1, 2, 3], false⟩ :: rest
      ∧ (computeCrc32 [1, 2, 3]).length = 8
      ∧ ∀ c ∈ (computeCrc32 [1, 2, 3]).data, isUpperHexDigit c :=
  ⟨by simp, c1_write_read_roundtrip 100 200 (fun _ => none) "k" [1, 2, 3] false false
    (by simp) (by intro s hs; simp [existingSavesOf] at hs)⟩

/-- C4: on a non-empty sorted existing save list, `createNew = false` replaces
slot 0 and keeps the tail, `createNew = true` prepends and keeps everything,
and both results are sorted descending by `updatedAt` (assuming the wall clock
did not run backwards relative to the existing entries). -/
theorem c4_write_slot_semantics (now : Int) (store : Store) (romId : String)
    (d : List Nat) (isAuto : Bool) (s0 : PersistedSaveState) (tl : List PersistedSaveState)
    (hexist : existingSavesOf store romId = s0 :: tl)
    (hsorted : (s0 :: tl).Pairwise (fun a b => b.updatedAt ≤ a.updatedAt))
    (hmono : ∀ s ∈ existingSavesOf store romId, s.updatedAt ≤ now) :
    (writePersistedSave now store romId (some d) false isAuto) romId
      = some (.multi ((⟨d, now, computeCrc32 d, some isAuto⟩ : PersistedSaveState) :: tl))
    ∧ (writePersistedSave now store romId (some d) true isAuto) romId
      = some (.multi (⟨d, now, computeCrc32 d, some isAuto⟩ :: s0 :: tl))
    ∧ ((⟨d, now, computeCrc32 d, some isAuto⟩ : PersistedSaveState) :: tl).Pairwise
        (fun a b => b.updatedAt ≤ a.updatedAt)
    ∧ ((⟨d, now, computeCrc32 d, some isAuto⟩ : PersistedSaveState) :: s0 :: tl).Pairwise
        (fun a b => b.updatedAt ≤ a.updatedAt) := by
  have hall : ∀ b ∈ s0 :: tl, b.updatedAt ≤ now := fun b hb => hmono b (hexist ▸ hb)
  have pw2 : ((⟨d, now, computeCrc32 d, some isAuto⟩ : PersistedSaveState) :: s0 :: tl).Pairwise
      (fun a b => b.updatedAt ≤ a.updatedAt) :=
    List.Pairwise.cons (fun b hb => hall b hb) hsorted
  have pw1 : ((⟨d, now, computeCrc32 d, some isAuto⟩ : PersistedSaveState) :: tl).Pairwise
      (fun a b => b.updatedAt ≤ a.updatedAt) :=
    List.Pairwise.cons (fun b hb => hall b (List.mem_cons_of_mem s0 hb))
      (List.Pairwise.of_cons hsorted)
  have toBool : ∀ {l : List PersistedSaveState},
      l.Pairwise (fun a b => b.updatedAt ≤ a.updatedAt) →
      l.Pairwise (fun a b => saveLe a b = true) :=
    fun h => h.imp (fun hab => by simpa [saveLe] using hab)
  refine ⟨?_, ?_, pw1, pw2⟩
  · simp only [writePersistedSave, existingSavesOf] at *
    simp [hexist, List.mergeSort_of_sorted (toBool pw1)]
  · simp only [writePersistedSave, existingSavesOf] at *
    simp [hexist, List.mergeSort_of_sorted (toBool pw2)]

/-- Witness for C4 at a concrete store holding one existing save. -/
theorem c4_witness :
    existingSavesOf
        (fun k => if k = "k" then some (.multi [⟨[7], 50, "X", none⟩]) else none) "k"
      = [⟨[7], 50, "X", none⟩]
    ∧ ((writePersistedSave 100
          (fun k => if k = "k" then some (.multi [⟨[7], 50, "X", none⟩]) else none)
          "k" (some [1]) false true) "k"
        = some (.multi [⟨[1], 100, computeCrc32 [1], some true⟩])
      ∧ (writePersistedSave 100
          (fun k => if k = "k" then some (.multi [⟨[7], 50, "X", none⟩]) else none)
          "k" (some [1]) true true) "k"
        = some (.multi [⟨[1], 100, computeCrc32 [1], some true⟩, ⟨[7], 50, "X", none⟩])
      ∧ ([(⟨[1], 100, computeCrc32 [1], some true⟩ : PersistedSaveState)]).Pairwise
          (fun a b => b.updatedAt ≤ a.updatedAt)
      ∧ ([⟨[1], 100, computeCrc32 [1], some true⟩,
          (⟨[7], 50, "X", none⟩ : PersistedSaveState)]).Pairwise
          (fun a b => b.updatedAt ≤ a.updatedAt)) := by
  refine ⟨by simp [existingSavesOf], ?_⟩
  have h := c4_write_slot_semantics 100
    (fun k => if k = "k" then some (.multi [⟨[7], 50, "X", none⟩]) else none)
    "k" [1] true ⟨[7], 50, "X", none⟩ []
    (by simp [existingSavesOf]) (by simp)
    (by intro s hs; simp [existingSavesOf] at hs; simp [hs])
  exact h

/-- C7: a stored legacy record (object shape or bare buffer) decodes on read
to a one-element save list whose checksum is freshly computed from the blob,
and the read leaves the store unmodified. -/
theorem c7_legacy_read (now : Int) (store : Store) (romId : String)
    (data : List Nat) (u : Option Int)
    (hobj : store romId = some (.legacyObj (some data) u)) :
    (readPersistedSaves now store romId).1
      = [⟨data, some (u.getD now), computeCrc32 data, false⟩]
    ∧ (readPersistedSaves now store romId).2 = store
    ∧ ∀ (st2 : Store) (rid : String) (buf : List Nat),
        st2 rid = some (.legacyBuffer buf) →
        (readPersistedSaves now st2 rid).1 = [⟨buf, some now, computeCrc32 buf, false⟩]
        ∧ (readPersistedSaves now st2 rid).2 = st2 := by
  refine ⟨?_, rfl, fun st2 rid buf h2 => ⟨?_, rfl⟩⟩
  · simp [readPersistedSaves, hobj, decodeRecord]
  · simp [readPersistedSaves, h2, decodeRecord]

/-- Witness for C7 at a concrete legacy store. -/
theorem c7_witness :
    (readPersistedSaves 99
        (fun k => if k = "k" then some (.legacyObj (some [5, 6]) (some 42)) else none) "k").1
      = [⟨[5, 6], some 42, computeCrc32 [5, 6], false⟩]
    ∧ (readPersistedSaves 99
        (fun k => if k = "k" then some (.legacyObj (some [5, 6]) (some 42)) else none) "k").2
      = (fun k => if k = "k" then some (.legacyObj (some [5, 6]) (some 42)) else none)
    ∧ ∀ (st2 : Store) (rid : String) (buf : List Nat),
        st2 rid = some (.legacyBuffer buf) →
        (readPersistedSaves 99 st2 rid).1 = [⟨buf, some 99, computeCrc32 buf, false⟩]
        ∧ (readPersistedSaves 99 st2 rid).2 = st2 := by
  have h := c7_legacy_read 99
    (fun k => if k = "k" then some (.legacyObj (some [5, 6]) (some 42)) else none)
    "k" [5, 6] (some 42) (by simp)
  simpa using h

/-! ## Candidate gathering (`loadPersistedState`, lines 788-853)

For each persistence key the loop reads and decodes the stored record; with a
specific timestamp it picks the save whose `updatedAt` matches exactly,
otherwise it picks `saves[0]` — the most recent save of that key only. The
collected candidates are then sorted descending by `updatedAt`, with a `null`
timestamp ordered as `-Infinity` (the comparator is
`(a, b) => bTime - aTime`). -/

structure Candidate where
  key : String
  data : List Nat
  updatedAt : Option Int
deriving DecidableEq

/-- Candidate comparator: `a` may precede `b` iff `bTime - aTime ≤ 0` where a
missing timestamp counts as `-Infinity` (ties, including the NaN case of two
missing timestamps, keep original order under the stable sort). -/
def candLe (a b : Candidate) : Bool :=
  match b.updatedAt, a.updatedAt with
  | none, _ => true
  | some _, none => false
  | some tb, some ta => tb ≤ ta

/-- `≤` on `number | null` timestamps with `null` as `-Infinity`. -/
def optTimeLe : Option Int → Option Int → Prop
  | none, _ => True
  | some _, none => False
  | some a, some b => a ≤ b

instance : ∀ a b : Option Int, Decidable (optTimeLe a b) := fun a b =>
  match a, b with
  | none, _ => isTrue trivial
  | some _, none => isFalse (fun h => h)
  | some x, some y => inferInstanceAs (Decidable (x ≤ y))

/-- The candidate(s) one key contributes: nothing when its record decodes
empty; otherwise, with a requested timestamp, the save found with that exact
`updatedAt` (if any, and non-empty); without one, slot 0 only (if non-empty). -/
def candidatesOfKey (saves : List StoredSaveData) (key : String) :
    Option Int → List Candidate
  | some t =>
    match saves with
    | [] => []
    | _ :: _ =>
      match saves.find? (fun s => s.updatedAt == some t) with
      | some s => if 0 < s.data.length then [⟨key, s.data, s.updatedAt⟩] else []
      | none => []
  | none =>
    match saves with
    | [] => []
    | s :: _ => if 0 < s.data.length then [⟨key, s.data, s.updatedAt⟩] else []

/-- The candidate read phase of `loadPersistedState`: per-key candidates,
flattened in key order, sorted descending by `updatedAt`. -/
def gatherCandidates (now : Int) (store : Store) (keys : List String)
    (ts : Option Int) : List Candidate :=
  (keys.flatMap fun key =>
    candidatesOfKey (readPersistedSaves now store key).1 key ts).mergeSort candLe

/-! ## Apply / retry state machine (lines 669-944)

`applyPendingState` returns `queued` when the emulator instance or its game
manager is missing (leaving the pending state in place), `restored` when one
of the three apply strategies commits (direct `loadState`, `setState`
fallback, filesystem fallback), `failed` otherwise; in the latter two cases
the pending state is cleared. The engine interaction is summarised by
`ManagerView`: for each optional call, `none` means the function is absent
and `some ok` whether it commits or throws; `fsWriteOk` is the result of
`writeSaveToFilesystem`. -/

inductive ApplyOutcome where
  | restored
  | queued
  | failed
deriving DecidableEq

structure ManagerView where
  loadStateOk : Option Bool
  setStateOk : Option Bool
  fsWriteOk : Bool
deriving DecidableEq

/-- The three apply strategies in order: `loadState` (if present and it does
not throw), then `setState`, then the filesystem fallback. -/
def strategiesRestore (m : ManagerView) : Bool :=
  if m.loadStateOk = some true then true
  else if m.setStateOk = some true then true
  else m.fsWriteOk

inductive EngineStatus where
  | absent
  | noManager
  | withManager (m : ManagerView)
deriving DecidableEq

/-- The per-instance mutable persistence state used by the retry machinery:
the `retryAttempt` counter and the `pendingState` payload. -/
structure PlayerSt where
  retryAttempt : Nat
  pendingState : Option (List Nat)
deriving DecidableEq

def applyPendingState (eng : EngineStatus) (s : PlayerSt) : ApplyOutcome × PlayerSt :=
  match s.pendingState with
  | none => (.failed, s)
  | some [] => (.failed, s)
  | some (_ :: _) =>
    match eng with
    | .absent => (.queued, s)
    | .noManager => (.queued, s)
    | .withManager m =>
      if strategiesRestore m then (.restored, { s with pendingState := none })
      else (.failed, { s with pendingState := none })

/-- `maxRetries = 8`. -/
def maxRetries : Nat := 8

/-- The synchronous part of `retryApplyPendingState`: abort when no pending
state; give up (clearing the pending state) when the attempt counter reached
the cap; otherwise compute the backoff delay `min(200 * 2^attempt, 30000)`,
increment the counter and schedule a timer with that delay (returned as
`some delay`). -/
def retrySchedule (s : PlayerSt) : PlayerSt × Option Nat :=
  match s.pendingState with
  | none => (s, none)
  | some _ =>
    if maxRetries ≤ s.retryAttempt then ({ s with pendingState := none }, none)
    else ({ s with retryAttempt := s.retryAttempt + 1 },
          some (min (200 * 2 ^ s.retryAttempt) 30000))

/-- The retry timer callback: abort if the pending state was cleared;
otherwise apply. `restored` and `failed` reset the attempt counter to 0 and
schedule nothing further; `queued` re-invokes the scheduler. -/
def retryTimerBody (eng : EngineStatus) (s : PlayerSt) : PlayerSt × Option Nat :=
  match s.pendingState with
  | none => (s, none)
  | some _ =>
    let r := applyPendingState eng s
    match r.1 with
    | .restored => ({ r.2 with retryAttempt := 0 }, none)
    | .queued => retrySchedule r.2
    | .failed => ({ r.2 with retryAttempt := 0 }, none)

/-- Run the scheduled-timer loop: while a timer is scheduled, fire it and
continue with whatever the callback schedules next, collecting the delays of
every fired timer. `fuel` bounds the recursion; the claims below show the
loop stops by itself (the last step schedules nothing) well within the fuel
provided by `runRetrySequence`. -/
def fireLoop (eng : EngineStatus) : Nat → PlayerSt → Option Nat → List Nat × PlayerSt
  | _, s, none => ([], s)
  | 0, s, some d => ([d], s)
  | fuel + 1, s, some d =>
    let r := retryTimerBody eng s
    let rest := fireLoop eng fuel r.1 r.2
    (d :: rest.1, rest.2)

/-- A full retry sequence as started by `retryApplyPendingState(reason)`:
one initial scheduling step followed by the timer loop. -/
def runRetrySequence (eng : EngineStatus) (s : PlayerSt) : List Nat × PlayerSt :=
  let r := retrySchedule s
  fireLoop eng (maxRetries + 1) r.1 r.2

/-- Result of the candidate iteration of `loadPersistedState`: whether a
candidate was restored, the final `PlayerSt`, the retry delay scheduled on a
`queued` hand-off (if any), and the list of candidates actually applied, in
order. -/
structure LoadStepResult where
  success : Bool
  st : PlayerSt
  scheduledDelay : Option Nat
  applied : List Candidate
deriving DecidableEq

/-- The candidate iteration (lines 830-853): set the pending state to the
candidate's bytes and apply. `restored` returns success at once; `queued`
resets the attempt counter, starts the retry scheduler and returns; `failed`
clears the pending state and moves to the next-older candidate; an exhausted
list clears the pending state and returns failure. -/
def loadIterate (eng : EngineStatus) : List Candidate → PlayerSt → LoadStepResult
  | [], s => ⟨false, { s with pendingState := none }, none, []⟩
  | c :: rest, s =>
    let r := applyPendingState eng { s with pendingState := some c.data }
    match r.1 with
    | .restored => ⟨true, r.2, none, [c]⟩
    | .queued =>
      let q := retrySchedule { r.2 with retryAttempt := 0 }
      ⟨false, q.1, q.2, [c]⟩
    | .failed =>
      let r2 := loadIterate eng rest { r.2 with pendingState := none }
      ⟨r2.success, r2.st, r2.scheduledDelay, c :: r2.applied⟩

/-- `loadPersistedState(reason, timestamp?)`: gather candidates, then iterate. -/
def loadPersistedState (eng : EngineStatus) (now : Int) (store : Store)
    (keys : List String) (ts : Option Int) (s : PlayerSt) : LoadStepResult :=
  loadIterate eng (gatherCandidates now store keys ts) s

/-- The body of the deferred game-start handler (also the shape of the
`onGameStart`, poll-success and ready-fallback paths): with a pending state,
apply it; a `queued` outcome resets the attempt counter and starts the retry
scheduler; any other outcome changes nothing further. With no pending state
the handler instead triggers the one-shot startup load (third component). -/
def gameStartHandlerBody (eng : EngineStatus) (s : PlayerSt)
    (startupLoadAttempted : Bool) : PlayerSt × Option Nat × Bool :=
  match s.pendingState with
  | some _ =>
    let r := applyPendingState eng s
    match r.1 with
    | .queued =>
      let q := retrySchedule { r.2 with retryAttempt := 0 }
      (q.1, q.2, false)
    | _ => (r.2, none, false)
  | none => (s, none, !startupLoadAttempted)

/-! ### Helper facts about `applyPendingState` -/

/-- A `queued` outcome leaves the state untouched. -/
theorem applyPendingState_queued_eq (eng : EngineStatus) (s : PlayerSt)
    (h : (applyPendingState eng s).1 = .queued) : (applyPendingState eng s).2 = s := by
  cases hps : s.pendingState with
  | none => simp [applyPendingState, hps] at h
  | some p =>
    cases p with
    | nil => simp [applyPendingState, hps] at h
    | cons b bs =>
      cases eng with
      | absent => simp [applyPendingState, hps]
      | noManager => simp [applyPendingState, hps]
      | withManager m =>
        by_cases hm : strategiesRestore m
        · simp [applyPendingState, hps, hm] at h
        · simp [applyPendingState, hps, hm] at h

/-- Outcomes other than `failed` require a non-empty pending payload. -/
theorem applyPendingState_pending_of_ne_failed (eng : EngineStatus) (s : PlayerSt)
    (h : (applyPendingState eng s).1 ≠ .failed) :
    ∃ b bs, s.pendingState = some (b :: bs) := by
  cases hps : s.pendingState with
  | none => exact absurd (by simp [applyPendingState, hps]) h
  | some p =>
    cases p with
    | nil => exact absurd (by simp [applyPendingState, hps]) h
    | cons b bs => exact ⟨b, bs, rfl⟩

/-- `applyPendingState` never touches the retry counter. -/
theorem applyPendingState_attempt (eng : EngineStatus) (s : PlayerSt) :
    (applyPendingState eng s).2.retryAttempt = s.retryAttempt := by
  cases hps : s.pendingState with
  | none => simp [applyPendingState, hps]
  | some p =>
    cases p with
    | nil => simp [applyPendingState, hps]
    | cons b bs =>
      cases eng with
      | absent => simp [applyPendingState, hps]
      | noManager => simp [applyPendingState, hps]
      | withManager m =>
        by_cases hm : strategiesRestore m <;> simp [applyPendingState, hps, hm]

/-- One unfolding step of the timer loop. -/
theorem fireLoop_step (eng : EngineStatus) (fuel : Nat) (s : PlayerSt) (d : Nat) :
    fireLoop eng (fuel + 1) s (some d)
      = (d :: (fireLoop eng fuel (retryTimerBody eng s).1 (retryTimerBody eng s).2).1,
         (fireLoop eng fuel (retryTimerBody eng s).1 (retryTimerBody eng s).2).2) := rfl

/-- The timer loop stops as soon as nothing is scheduled. -/
theorem fireLoop_none (eng : EngineStatus) (fuel : Nat) (s : PlayerSt) :
    fireLoop eng fuel s none = ([], s) := by
  cases fuel <;> rfl

/-- C3: for a non-empty pending payload under an engine that stays unready
(absent, or present without its game-state object), a retry sequence started
from attempt 0 fires exactly 8 attempts, with delays starting at the 200 ms
base and doubling, each capped at 30000 ms; after the last attempt the
pending state becomes `none` and no further timer is scheduled. -/
theorem c3_retry_backoff (eng : EngineStatus) (p : List Nat)
    (heng : eng = .absent ∨ eng = .noManager) (hp : p ≠ []) :
    runRetrySequence eng ⟨0, some p⟩
      = ([200, 400, 800, 1600, 3200, 6400, 12800, 25600], ⟨maxRetries, none⟩)
    ∧ [200, 400, 800, 1600, 3200, 6400, 12800, 25600]
      = (List.range maxRetries).map (fun i => min (200 * 2 ^ i) 30000)
    ∧ (retrySchedule (runRetrySequence eng ⟨0, some p⟩).2).2 = none := by
  obtain ⟨b, bs, rfl⟩ : ∃ b bs, p = b :: bs := by
    cases p with
    | nil => exact absurd rfl hp
    | cons b bs => exact ⟨b, bs, rfl⟩
  have happly : ∀ s : PlayerSt, s.pendingState = some (b :: bs) →
      applyPendingState eng s = (.queued, s) := by
    rcases heng with rfl | rfl <;> (intro s hs; simp [applyPendingState, hs])
  have tQ : ∀ k : Nat, ¬ (maxRetries ≤ k) → retryTimerBody eng ⟨k, some (b :: bs)⟩
      = (⟨k + 1, some (b :: bs)⟩, some (min (200 * 2 ^ k) 30000)) := by
    intro k hk
    simp [retryTimerBody, happly ⟨k, some (b :: bs)⟩ rfl, retrySchedule, hk]
  have tStop : retryTimerBody eng ⟨8, some (b :: bs)⟩ = (⟨8, none⟩, none) := by
    simp [retryTimerBody, happly ⟨8, some (b :: bs)⟩ rfl, retrySchedule, maxRetries]
  have f8 : fireLoop eng 2 ⟨8, some (b :: bs)⟩ (some 25600) = ([25600], ⟨8, none⟩) := by
    rw [fireLoop_step eng 1 ⟨8, some (b :: bs)⟩ 25600, tStop]
    simp [fireLoop_none]
  have f7 : fireLoop eng 3 ⟨7, some (b :: bs)⟩ (some 12800)
      = ([12800, 25600], ⟨8, none⟩) := by
    rw [fireLoop_step eng 2 ⟨7, some (b :: bs)⟩ 12800, tQ 7 (by simp [maxRetries])]
    simp [f8]
  have f6 : fireLoop eng 4 ⟨6, some (b :: bs)⟩ (some 6400)
      = ([6400, 12800, 25600], ⟨8, none⟩) := by
    rw [fireLoop_step eng 3 ⟨6, some (b :: bs)⟩ 6400, tQ 6 (by simp [maxRetries])]
    simp [f7]
  have f5 : fireLoop eng 5 ⟨5, some (b :: bs)⟩ (some 3200)
      = ([3200, 6400, 12800, 25600], ⟨8, none⟩) := by
    rw [fireLoop_step eng 4 ⟨5, some (b :: bs)⟩ 3200, tQ 5 (by simp [maxRetries])]
    simp [f6]
  have f4 : fireLoop eng 6 ⟨4, some (b :: bs)⟩ (some 1600)
      = ([1600, 3200, 6400, 12800, 25600], ⟨8, none⟩) := by
    rw [fireLoop_step eng 5 ⟨4, some (b :: bs)⟩ 1600, tQ 4 (by simp [maxRetries])]
    simp [f5]
  have f3 : fireLoop eng 7 ⟨3, some (b :: bs)⟩ (some 800)
      = ([800, 1600, 3200, 6400, 12800, 25600], ⟨8, none⟩) := by
    rw [fireLoop_step eng 6 ⟨3, some (b :: bs)⟩ 800, tQ 3 (by simp [maxRetries])]
    simp [f4]
  have f2 : fireLoop eng 8 ⟨2, some (b :: bs)⟩ (some 400)
      = ([400, 800, 1600, 3200, 6400, 12800, 25600], ⟨8, none⟩) := by
    rw [fireLoop_step eng 7 ⟨2, some (b :: bs)⟩ 400, tQ 2 (by simp [maxRetries])]
    simp [f3]
  have f1 : fireLoop eng 9 ⟨1, some (b :: bs)⟩ (some 200)
      = ([200, 400, 800, 1600, 3200, 6400, 12800, 25600], ⟨8, none⟩) := by
    rw [fireLoop_step eng 8 ⟨1, some (b :: bs)⟩ 200, tQ 1 (by simp [maxRetries])]
    simp [f2]
  have e0 : retrySchedule ⟨0, some (b :: bs)⟩ = (⟨1, some (b :: bs)⟩, some 200) := by
    simp [retrySchedule, maxRetries]
  have h1 : runRetrySequence eng ⟨0, some (b :: bs)⟩
      = ([200, 400, 800, 1600, 3200, 6400, 12800, 25600], ⟨maxRetries, none⟩) := by
    simp only [runRetrySequence]
    rw [e0]
    simp [maxRetries, f1]
  refine ⟨h1, by decide, ?_⟩
  rw [h1]
  rfl

/-- Witness for C3 at a concrete payload and an absent engine. -/
theorem c3_witness :
    ([1] : List Nat) ≠ []
    ∧ runRetrySequence .absent ⟨0, some [1]⟩
      = ([200, 400, 800, 1600, 3200, 6400, 12800, 25600], ⟨maxRetries, none⟩) :=
  ⟨by simp, (c3_retry_backoff .absent [1] (Or.inl rfl) (by simp)).1⟩

/-- C5: a `queued` outcome stops candidate iteration at once — no older
candidate is applied — and starts the retry scheduler (counter reset to 0,
first 200 ms timer scheduled); only a `failed` outcome continues iteration
with the next-older candidate. -/
theorem c5_queued_stops_iteration (eng : EngineStatus) (s : PlayerSt)
    (c : Candidate) (rest : List Candidate)
    (hq : (applyPendingState eng { s with pendingState := some c.data }).1 = .queued) :
    loadIterate eng (c :: rest) s
      = ⟨false, ⟨1, some c.data⟩, some 200, [c]⟩
    ∧ ∀ (eng2 : EngineStatus) (s2 : PlayerSt) (c2 : Candidate) (rest2 : List Candidate),
      (applyPendingState eng2 { s2 with pendingState := some c2.data }).1 = .failed →
      ∃ r2, r2 = loadIterate eng2 rest2
          { (applyPendingState eng2 { s2 with pendingState := some c2.data }).2 with
              pendingState := none }
        ∧ loadIterate eng2 (c2 :: rest2) s2
          = ⟨r2.success, r2.st, r2.scheduledDelay, c2 :: r2.applied⟩ := by
  constructor
  · have hkeep := applyPendingState_queued_eq eng _ hq
    simp only [loadIterate, hq, hkeep]
    simp [retrySchedule, maxRetries]
  · intro eng2 s2 c2 rest2 hf
    refine ⟨_, rfl, ?_⟩
    simp only [loadIterate, hf]

/-- Witness for C5 at a concrete candidate list and an absent engine. -/
theorem c5_witness :
    (applyPendingState .absent ⟨0, some [1]⟩).1 = .queued
    ∧ loadIterate .absent [⟨"k", [1], some 5⟩, ⟨"k2", [2], some 3⟩] ⟨0, none⟩
      = ⟨false, ⟨1, some [1]⟩, some 200, [⟨"k", [1], some 5⟩]⟩ :=
  ⟨by decide,
    (c5_queued_stops_iteration .absent ⟨0, none⟩ ⟨"k", [1], some 5⟩
      [⟨"k2", [2], some 3⟩] (by decide)).1⟩

/-! ## C2: the candidate read phase -/

theorem candLe_trans : ∀ a b c : Candidate, candLe a b → candLe b c → candLe a c := by
  intro a b c hab hbc
  cases ha : a.updatedAt <;> cases hb : b.updatedAt <;> cases hc : c.updatedAt <;>
    simp_all [candLe] <;> omega

theorem candLe_total : ∀ a b : Candidate, candLe a b || candLe b a := by
  intro a b
  cases ha : a.updatedAt <;> cases hb : b.updatedAt <;> simp_all [candLe] <;> omega

theorem optTimeLe_refl (a : Option Int) : optTimeLe a a := by
  cases a <;> simp [optTimeLe]

theorem optTimeLe_trans {a b c : Option Int}
    (hab : optTimeLe a b) (hbc : optTimeLe b c) : optTimeLe a c := by
  cases a <;> cases b <;> cases c <;> simp_all [optTimeLe] <;> omega

theorem candLe_eq (a b : Candidate) :
    candLe a b = true ↔ optTimeLe b.updatedAt a.updatedAt := by
  cases ha : a.updatedAt <;> cases hb : b.updatedAt <;> simp [candLe, optTimeLe, ha, hb]

/-- Each key with a non-empty decoded record (of non-empty saves) contributes
exactly one candidate to the no-timestamp read phase. -/
theorem gather_length_aux (now : Int) (store : Store) :
    ∀ (keys : List String),
    (∀ k ∈ keys, ∀ s ∈ (readPersistedSaves now store k).1, s.data ≠ []) →
    (keys.flatMap fun key =>
        candidatesOfKey (readPersistedSaves now store key).1 key none).length
      = (keys.filter (fun k => !((readPersistedSaves now store k).1).isEmpty)).length := by
  intro keys
  induction keys with
  | nil => intro _; rfl
  | cons k rest ih =>
    intro hdata
    rw [List.flatMap_cons, List.length_append, List.filter_cons,
      ih (fun k2 hk2 s hs => hdata k2 (List.mem_cons_of_mem _ hk2) s hs)]
    cases hemp : ((readPersistedSaves now store k).1).isEmpty with
    | true =>
      have hnil : (readPersistedSaves now store k).1 = [] := by
        cases hl : (readPersistedSaves now store k).1 with
        | nil => rfl
        | cons s r2 => rw [hl] at hemp; simp at hemp
      simp [candidatesOfKey, hnil, hemp]
    | false =>
      obtain ⟨s, r2, hsr⟩ : ∃ s r2, (readPersistedSaves now store k).1 = s :: r2 := by
        cases hl : (readPersistedSaves now store k).1 with
        | nil => rw [hl] at hemp; simp at hemp
        | cons s r2 => exact ⟨s, r2, rfl⟩
      have hne := hdata k (List.mem_cons_self _ _) s (by rw [hsr]; exact List.mem_cons_self _ _)
      simp [candidatesOfKey, hsr, hemp, List.length_pos.mpr hne]
      omega

/-- C2 (amended): with no timestamp requested, the candidate phase gathers
one candidate per key — only that key's slot-0 SaveState — sorted descending
by `updatedAt`; when every key's record is sorted descending (the maintained
invariant) and holds non-empty payloads, the head of the candidate list
attains the maximum `updatedAt` among all entries of all keys. -/
theorem c2_amended_gather (now : Int) (store : Store) (keys : List String)
    (hsorted : ∀ k ∈ keys, ((readPersistedSaves now store k).1).Pairwise
        (fun a b => optTimeLe b.updatedAt a.updatedAt))
    (hdata : ∀ k ∈ keys, ∀ s ∈ (readPersistedSaves now store k).1, s.data ≠ []) :
    (gatherCandidates now store keys none).length
      = (keys.filter (fun k => !((readPersistedSaves now store k).1).isEmpty)).length
    ∧ (gatherCandidates now store keys none).Pairwise (fun a b => candLe a b = true)
    ∧ ∀ h, (gatherCandidates now store keys none).head? = some h →
        ∀ k ∈ keys, ∀ s ∈ (readPersistedSaves now store k).1,
          optTimeLe s.updatedAt h.updatedAt := by
  have hsorted2 : (gatherCandidates now store keys none).Pairwise
      (fun a b => candLe a b = true) := by
    unfold gatherCandidates
    exact List.sorted_mergeSort candLe_trans candLe_total _
  refine ⟨?_, hsorted2, ?_⟩
  · unfold gatherCandidates
    rw [List.length_mergeSort]
    exact gather_length_aux now store keys hdata
  · intro h hh k hk s hs
    cases hl : (readPersistedSaves now store k).1 with
    | nil => rw [hl] at hs; cases hs
    | cons s0 t =>
      rw [hl] at hs
      have hss0 : optTimeLe s.updatedAt s0.updatedAt := by
        rcases List.mem_cons.mp hs with rfl | hmem
        · exact optTimeLe_refl _
        · have hpw := hsorted k hk
          rw [hl] at hpw
          exact (List.pairwise_cons.mp hpw).1 s hmem
      have hs0d : s0.data ≠ [] :=
        hdata k hk s0 (by rw [hl]; exact List.mem_cons_self _ _)
      have hck : (⟨k, s0.data, s0.updatedAt⟩ : Candidate) ∈
          keys.flatMap (fun key =>
            candidatesOfKey (readPersistedSaves now store key).1 key none) := by
        rw [List.mem_flatMap]
        exact ⟨k, hk, by simp [candidatesOfKey, hl, List.length_pos.mpr hs0d]⟩
      have hck2 : (⟨k, s0.data, s0.updatedAt⟩ : Candidate)
          ∈ gatherCandidates now store keys none := by
        unfold gatherCandidates
        exact List.mem_mergeSort.mpr hck
      obtain ⟨tail, htail⟩ : ∃ tail, gatherCandidates now store keys none = h :: tail := by
        cases hg : gatherCandidates now store keys none with
        | nil => simp [hg] at hh
        | cons x xs =>
          rw [hg, List.head?_cons] at hh
          obtain rfl : x = h := by injection hh
          exact ⟨xs, rfl⟩
      have hs0h : optTimeLe s0.updatedAt h.updatedAt := by
        rw [htail] at hck2
        rcases List.mem_cons.mp hck2 with heq | hmem
        · rw [← heq]
          exact optTimeLe_refl _
        · rw [htail] at hsorted2
          have hle := (List.pairwise_cons.mp hsorted2).1 _ hmem
          exact (candLe_eq _ _).mp hle
      exact optTimeLe_trans hss0 hs0h

/-- Store with a two-save record under one key, used to refute C2 as stated. -/
def c2Store : Store := fun k =>
  if k = "k" then
    some (.multi [⟨[1], 5, "a", none⟩, ⟨[9], 3, "b", none⟩])
  else none

/-- C2 is false as stated: with one key whose stored record holds two
SaveStates, the no-timestamp candidate phase produces a single candidate
(slot 0 only); the older SaveState (data `[9]`) appears as no candidate. -/
theorem c2_counterexample :
    ((readPersistedSaves 0 c2Store "k").1).length = 2
    ∧ (gatherCandidates 0 c2Store ["k"] none).length = 1
    ∧ ¬ ∃ c ∈ gatherCandidates 0 c2Store ["k"] none, c.data = [9] := by
  have hg : gatherCandidates 0 c2Store ["k"] none = [⟨"k", [1], some 5⟩] := by
    simp [gatherCandidates, candidatesOfKey, readPersistedSaves, c2Store, decodeRecord]
  refine ⟨rfl, ?_, ?_⟩ <;> simp [hg]

/-- Store for the C2 witness: two keys with descending-sorted records. -/
def c2WStore : Store := fun k =>
  if k = "a" then some (.multi [⟨[1], 10, "x", none⟩])
  else if k = "b" then some (.multi [⟨[2], 20, "y", none⟩, ⟨[3], 7, "z", none⟩])
  else none

/-- Witness for the amended C2 at a concrete two-key store. -/
theorem c2_witness :
    (gatherCandidates 0 c2WStore ["a", "b"] none).length
      = (["a", "b"].filter
          (fun k => !((readPersistedSaves 0 c2WStore k).1).isEmpty)).length
    ∧ (gatherCandidates 0 c2WStore ["a", "b"] none).Pairwise
        (fun a b => candLe a b = true) :=
  ⟨(c2_amended_gather 0 c2WStore ["a", "b"] (by decide) (by decide)).1,
   (c2_amended_gather 0 c2WStore ["a", "b"] (by decide) (by decide)).2.1⟩

/-! ## C8: the retry counter -/

/-- C8 is false as stated: a restore that succeeds in the game-start handler
path (engine ready, `loadState` commits) leaves a non-zero retry counter
untouched instead of resetting it to 0. -/
theorem c8_counterexample :
    (applyPendingState (.withManager ⟨some true, none, false⟩) ⟨3, some [1]⟩).1
      = .restored
    ∧ (gameStartHandlerBody (.withManager ⟨some true, none, false⟩)
        ⟨3, some [1]⟩ true).1.retryAttempt = 3
    ∧ (gameStartHandlerBody (.withManager ⟨some true, none, false⟩)
        ⟨3, some [1]⟩ true).1.retryAttempt ≠ 0 := by
  decide

/-- C8 (amended): while the counter is below the cap, an unready apply leads
to a retry being scheduled with the counter increasing by exactly 1 per
scheduled retry; a restore succeeding inside a retry timer callback resets
the counter to 0; each handler path that begins a new retry sequence resets
the counter to 0 before scheduling (leaving it at 1 with the base 200 ms
delay); a restore succeeding outside the retry path leaves the counter
unchanged. -/
theorem c8_amended_counter :
    (∀ s : PlayerSt, s.pendingState ≠ none → s.retryAttempt < maxRetries →
      (retrySchedule s).1.retryAttempt = s.retryAttempt + 1
      ∧ (retrySchedule s).2 = some (min (200 * 2 ^ s.retryAttempt) 30000))
    ∧ (∀ (eng : EngineStatus) (s : PlayerSt),
        (applyPendingState eng s).1 = .restored →
        (retryTimerBody eng s).1.retryAttempt = 0)
    ∧ (∀ (eng : EngineStatus) (s : PlayerSt) (b : Bool),
        (applyPendingState eng s).1 = .queued →
        (gameStartHandlerBody eng s b).1.retryAttempt = 1
        ∧ (gameStartHandlerBody eng s b).2.1 = some 200)
    ∧ ∀ (eng : EngineStatus) (s : PlayerSt) (b : Bool),
        (applyPendingState eng s).1 = .restored →
        (gameStartHandlerBody eng s b).1.retryAttempt = s.retryAttempt := by
  refine ⟨?_, ?_, ?_, ?_⟩
  · intro s h1 h2
    cases hps : s.pendingState with
    | none => exact absurd hps h1
    | some p => simp [retrySchedule, hps, Nat.not_le.mpr h2]
  · intro eng s hr
    obtain ⟨b, bs, hps⟩ := applyPendingState_pending_of_ne_failed eng s
      (by rw [hr]; simp)
    simp [retryTimerBody, hps, hr]
  · intro eng s b hq
    obtain ⟨b2, bs2, hps⟩ := applyPendingState_pending_of_ne_failed eng s
      (by rw [hq]; simp)
    have hkeep := applyPendingState_queued_eq eng s hq
    constructor <;> simp [gameStartHandlerBody, hps, hq, hkeep, retrySchedule, maxRetries]
  · intro eng s b hr
    obtain ⟨b2, bs2, hps⟩ := applyPendingState_pending_of_ne_failed eng s
      (by rw [hr]; simp)
    simp [gameStartHandlerBody, hps, hr, applyPendingState_attempt]

/-- Witness for the amended C8 at concrete states. -/
theorem c8_witness :
    (retrySchedule ⟨3, some [1]⟩).1.retryAttempt = 4
    ∧ (retryTimerBody (.withManager ⟨some true, none, false⟩)
        ⟨5, some [1]⟩).1.retryAttempt = 0
    ∧ (gameStartHandlerBody .absent ⟨5, some [1]⟩ true).1.retryAttempt = 1
    ∧ (gameStartHandlerBody (.withManager ⟨some true, none, false⟩)
        ⟨5, some [1]⟩ true).1.retryAttempt = 5 :=
  ⟨(c8_amended_counter.1 ⟨3, some [1]⟩ (by decide) (by decide)).1,
   c8_amended_counter.2.1 _ _ (by decide),
   (c8_amended_counter.2.2.1 _ _ true (by decide)).1,
   c8_amended_counter.2.2.2 _ _ true (by decide)⟩

/-! ## C6: `destroy()` (lines 1155-1200) -/

/-- The global `EJS_ready` / `EJS_onGameStart` hook slots; callbacks are
identified by reference, modelled as numeric identities (`none` = slot
absent). -/
structure HookState where
  ready : Option Nat
  onGameStart : Option Nat
deriving DecidableEq

/-- What `setupPersistentSave` captured at install time: the identities of
the two wrappers it installed and the previously captured callbacks. -/
structure DestroyCtx where
  readyWrapperId : Nat
  gameStartWrapperId : Nat
  previousReady : Option Nat
  previousOnGameStart : Option Nat
deriving DecidableEq

/-- `destroy`'s hook restoration: each global slot is restored to the
previously captured callback (or removed when none existed) only when the
slot still holds the wrapper this instance installed. -/
def restoreHooks (ctx : DestroyCtx) (h : HookState) : HookState :=
  { ready := if h.ready = some ctx.readyWrapperId then ctx.previousReady else h.ready,
    onGameStart :=
      if h.onGameStart = some ctx.gameStartWrapperId then ctx.previousOnGameStart
      else h.onGameStart }

inductive DestroyEvent where
  | clearTimers
  | clearPending
  | autosaveWrite (reason : String) (createNew : Bool) (captured : Bool)
  | restoreHookSlots
  | originalDestroy
deriving DecidableEq

/-- The per-instance state `destroy` acts on: tracked timer/interval handle
registries, the pending state, the global hook slots, and the store. -/
structure InstanceSt where
  timeouts : List Nat
  intervals : List Nat
  pendingState : Option (List Nat)
  hooks : HookState
  store : Store

/-- The body of `instance.destroy`: clear every tracked timeout and interval,
null the pending state, run the final autosave `persistState('destroy', true)`
(through every key), then restore the global hook slots, and finally invoke
the original destroy. The returned event list records the order in which the
steps run. -/
def destroySequence (now : Int) (ctx : DestroyCtx) (keys : List String)
    (capture : Option (List Nat)) (s : InstanceSt) : InstanceSt × List DestroyEvent :=
  let s1 : InstanceSt := { s with timeouts := [], intervals := [], pendingState := none }
  let r := persistStateModel now s1.store keys capture "destroy" true
  let s2 : InstanceSt := { s1 with store := r.2 }
  let s3 : InstanceSt := { s2 with hooks := restoreHooks ctx s2.hooks }
  (s3, [.clearTimers, .clearPending, .autosaveWrite "destroy" true r.1,
        .restoreHookSlots, .originalDestroy])

/-- C6: `destroy` clears every tracked timer and interval, nulls the pending
state, performs exactly one final autosave — a `persistState('destroy',
createNew := true)` call — positioned before the hook-slot restoration and
the original destroy, and restores each of the two global hook slots to its
exact previous reference (or removes it when none existed) only when the slot
still holds the wrapper this instance installed. -/
theorem c6_destroy_semantics (now : Int) (ctx : DestroyCtx) (keys : List String)
    (capture : Option (List Nat)) (s : InstanceSt) :
    (destroySequence now ctx keys capture s).1.timeouts = []
    ∧ (destroySequence now ctx keys capture s).1.intervals = []
    ∧ (destroySequence now ctx keys capture s).1.pendingState = none
    ∧ (destroySequence now ctx keys capture s).2
      = [.clearTimers, .clearPending,
         .autosaveWrite "destroy" true
           (persistStateModel now s.store keys capture "destroy" true).1,
         .restoreHookSlots, .originalDestroy]
    ∧ ((destroySequence now ctx keys capture s).2.filter
          (fun e => match e with
            | .autosaveWrite _ _ _ => true
            | _ => false)).length = 1
    ∧ (destroySequence now ctx keys capture s).1.store
      = (persistStateModel now s.store keys capture "destroy" true).2
    ∧ (destroySequence now ctx keys capture s).1.hooks = restoreHooks ctx s.hooks
    ∧ (s.hooks.ready = some ctx.readyWrapperId →
        (destroySequence now ctx keys capture s).1.hooks.ready = ctx.previousReady)
    ∧ (s.hooks.ready ≠ some ctx.readyWrapperId →
        (destroySequence now ctx keys capture s).1.hooks.ready = s.hooks.ready)
    ∧ (s.hooks.onGameStart = some ctx.gameStartWrapperId →
        (destroySequence now ctx keys capture s).1.hooks.onGameStart
          = ctx.previousOnGameStart)
    ∧ (s.hooks.onGameStart ≠ some ctx.gameStartWrapperId →
        (destroySequence now ctx keys capture s).1.hooks.onGameStart
          = s.hooks.onGameStart) := by
  refine ⟨rfl, rfl, rfl, rfl, rfl, rfl, rfl, ?_, ?_, ?_, ?_⟩ <;>
    (intro h; simp [destroySequence, restoreHooks, h])

/-- Witness for C6 at a concrete instance: the ready slot still holds this
instance's wrapper and is restored to the previous callback; the game-start
slot was clobbered by someone else and is left alone. -/
theorem c6_witness :
    (destroySequence 0 ⟨1, 2, some 10, none⟩ ["k"] (some [1])
        ⟨[5], [6], some [7], ⟨some 1, some 99⟩, fun _ => none⟩).1.hooks.ready = some 10
    ∧ (destroySequence 0 ⟨1, 2, some 10, none⟩ ["k"] (some [1])
        ⟨[5], [6], some [7], ⟨some 1, some 99⟩, fun _ => none⟩).1.hooks.onGameStart
      = some 99
    ∧ (destroySequence 0 ⟨1, 2, some 10, none⟩ ["k"] (some [1])
        ⟨[5], [6], some [7], ⟨some 1, some 99⟩, fun _ => none⟩).1.timeouts = [] :=
  ⟨(c6_destroy_semantics 0 ⟨1, 2, some 10, none⟩ ["k"] (some [1])
      ⟨[5], [6], some [7], ⟨some 1, some 99⟩, fun _ => none⟩).2.2.2.2.2.2.2.1 (by simp),
   (c6_destroy_semantics 0 ⟨1, 2, some 10, none⟩ ["k"] (some [1])
      ⟨[5], [6], some [7], ⟨some 1, some 99⟩, fun _ => none⟩).2.2.2.2.2.2.2.2.2.2 (by simp),
   (c6_destroy_semantics 0 ⟨1, 2, some 10, none⟩ ["k"] (some [1])
      ⟨[5], [6], some [7], ⟨some 1, some 99⟩, fun _ => none⟩).1⟩

/-! ## C9: empty identity disables persistence -/

/-- The deduplicated persistence key set built in `setupPersistentSave`:
`[persistId, id, ...alternateIds]`, each trimmed when a string (anything else
becomes the empty string), empty strings filtered out, first occurrences
kept. -/
def computePersistenceKeys (persistId id : Option String)
    (alternateIds : List (Option String)) : List String :=
  (((persistId :: id :: alternateIds).map
      (fun v => match v with
        | some str => str.trim
        | none => "")).filter (fun str => str ≠ "")).eraseDups

/-- Persistence is configured only with at least one key and an available
IndexedDB. -/
def persistenceConfigured (keys : List String) (idbAvailable : Bool) : Bool :=
  !keys.isEmpty && idbAvailable

/-- The host-facing entry of one `listSaves()` element (the locale-formatted
timestamp string of the source is omitted as environment-dependent). -/
structure SaveStateInfo where
  timestamp : Int
  crc32 : String
  isAutoSave : Bool
deriving DecidableEq

/-- `listSaves()` sort comparator `(a, b) => b.timestamp - a.timestamp`. -/
def infoLe (a b : SaveStateInfo) : Bool := b.timestamp ≤ a.timestamp

/-- `listSaves()`: every save across every key, de-duplicated by exact
`updatedAt` match against already collected timestamps, annotated, and sorted
newest-first. -/
def listSavesModel (now : Int) (store : Store) (keys : List String) :
    List SaveStateInfo :=
  (keys.foldl (fun acc key =>
      (readPersistedSaves now store key).1.foldl (fun acc2 save =>
        if acc2.any (fun info => save.updatedAt == some info.timestamp) then acc2
        else acc2 ++ [⟨save.updatedAt.getD 0, save.crc32, save.isAutoSave⟩]) acc)
    []).mergeSort infoLe

/-- `instance.persistSave`: the stub resolving `false` when persistence is
not configured, `persistState('manual', createNew)` otherwise. -/
def instancePersistSave (keys : List String) (idbAvailable : Bool) (now : Int)
    (capture : Option (List Nat)) (createNew : Bool) (store : Store) : Bool × Store :=
  if persistenceConfigured keys idbAvailable then
    persistStateModel now store keys capture "manual" createNew
  else (false, store)

/-- `instance.loadLatestSave`: stub resolving `false` when not configured,
`loadPersistedState('manual')` otherwise. -/
def instanceLoadLatestSave (keys : List String) (idbAvailable : Bool)
    (eng : EngineStatus) (now : Int) (store : Store) (s : PlayerSt) : Bool × PlayerSt :=
  if persistenceConfigured keys idbAvailable then
    ((loadPersistedState eng now store keys none s).success,
     (loadPersistedState eng now store keys none s).st)
  else (false, s)

/-- `instance.loadSaveByTimestamp`: stub resolving `false` when not
configured, `loadPersistedState('manual', ts)` otherwise. -/
def instanceLoadSaveByTimestamp (keys : List String) (idbAvailable : Bool)
    (eng : EngineStatus) (now : Int) (store : Store) (ts : Int) (s : PlayerSt) :
    Bool × PlayerSt :=
  if persistenceConfigured keys idbAvailable then
    ((loadPersistedState eng now store keys (some ts) s).success,
     (loadPersistedState eng now store keys (some ts) s).st)
  else (false, s)

/-- `instance.listSaves`: stub resolving `[]` when not configured. -/
def instanceListSaves (keys : List String) (idbAvailable : Bool) (now : Int)
    (store : Store) : List SaveStateInfo :=
  if persistenceConfigured keys idbAvailable then listSavesModel now store keys
  else []

/-- C9: an empty deduplicated identity key set disables persistence without
error: `persistSave`, `loadLatestSave` and `loadSaveByTimestamp` resolve to
`false` (leaving the store and player state untouched) and `listSaves`
resolves to the empty list. Each operation is a total function returning a
value, mirroring the source's policy of resolving rather than throwing. -/
theorem c9_empty_identity_disables (persistId id : Option String)
    (alts : List (Option String)) (idb : Bool)
    (hkeys : computePersistenceKeys persistId id alts = [])
    (now : Int) (capture : Option (List Nat)) (createNew : Bool)
    (store : Store) (eng : EngineStatus) (ts : Int) (s : PlayerSt) :
    instancePersistSave (computePersistenceKeys persistId id alts) idb now
        capture createNew store = (false, store)
    ∧ instanceLoadLatestSave (computePersistenceKeys persistId id alts) idb eng now
        store s = (false, s)
    ∧ instanceLoadSaveByTimestamp (computePersistenceKeys persistId id alts) idb eng now
        store ts s = (false, s)
    ∧ instanceListSaves (computePersistenceKeys persistId id alts) idb now store = [] := by
  rw [hkeys]
  refine ⟨?_, ?_, ?_, ?_⟩ <;>
    simp [instancePersistSave, instanceLoadLatestSave, instanceLoadSaveByTimestamp,
      instanceListSaves, persistenceConfigured]

/-- Witness for C9: absent identity metadata yields an empty key set and
disabled persistence. -/
theorem c9_witness :
    computePersistenceKeys none none [] = []
    ∧ instancePersistSave (computePersistenceKeys none none []) true 0
        (some [1]) false (fun _ => none) = (false, fun _ => none)
    ∧ instanceListSaves (computePersistenceKeys none none []) true 0
        (fun _ => none) = [] := by
  have hkeys : computePersistenceKeys none none [] = [] := by decide
  exact ⟨hkeys,
    (c9_empty_identity_disables none none [] true hkeys 0 (some [1]) false
      (fun _ => none) .absent 0 ⟨0, none⟩).1,
    (c9_empty_identity_disables none none [] true hkeys 0 (some [1]) false
      (fun _ => none) .absent 0 ⟨0, none⟩).2.2.2⟩

/-! ## C10: the `isAutoSave` flag -/

/-- C10: a write performed by `persistState` stores `isAutoSave = (reason ===
'destroy')` — so every manual save stores `false` and the destroy-time
autosave stores `true` — and a legacy record migrated on read always reports
`isAutoSave = false`. -/
theorem c10_isAutoSave_flag (now now2 : Int) (store : Store) (keys : List String)
    (k : String) (b : Nat) (bs : List Nat) (createNew : Bool)
    (hk : k ∈ keys) (hnd : keys.Nodup)
    (hmono : ∀ s ∈ existingSavesOf store k, s.updatedAt ≤ now) :
    (∃ rest, (readPersistedSaves now2
        (persistStateModel now store keys (some (b :: bs)) "manual" createNew).2 k).1
      = ⟨b :: bs, some now, computeCrc32 (b :: bs), false⟩ :: rest)
    ∧ (∃ rest, (readPersistedSaves now2
        (persistStateModel now store keys (some (b :: bs)) "destroy" createNew).2 k).1
      = ⟨b :: bs, some now, computeCrc32 (b :: bs), true⟩ :: rest)
    ∧ isAutoSaveFor "manual" = false
    ∧ isAutoSaveFor "destroy" = true
    ∧ (∀ (d2 : List Nat) (u : Option Int) (s2 : StoredSaveData),
        s2 ∈ decodeRecord now (some (.legacyObj (some d2) u)) → s2.isAutoSave = false)
    ∧ (∀ (d2 : List Nat) (s2 : StoredSaveData),
        s2 ∈ decodeRecord now (some (.legacyBuffer d2)) → s2.isAutoSave = false) := by
  have hman : isAutoSaveFor "manual" = false := rfl
  have hdes : isAutoSaveFor "destroy" = true := rfl
  refine ⟨?_, ?_, hman, hdes, ?_, ?_⟩
  · have h := persistState_head now now2 store keys k b bs "manual" createNew hk hnd hmono
    rwa [hman] at h
  · have h := persistState_head now now2 store keys k b bs "destroy" createNew hk hnd hmono
    rwa [hdes] at h
  · intro d2 u s2 hs2
    simp [decodeRecord] at hs2
    simp [hs2]
  · intro d2 s2 hs2
    simp [decodeRecord] at hs2
    simp [hs2]

/-- Witness for C10 at a concrete key and empty prior store. -/
theorem c10_witness :
    (∃ rest, (readPersistedSaves 200
        (persistStateModel 100 (fun _ => none) ["k"] (some [1]) "manual" false).2 "k").1
      = ⟨[1], some 100, computeCrc32 [1], false⟩ :: rest)
    ∧ (∃ rest, (readPersistedSaves 200
        (persistStateModel 100 (fun _ => none) ["k"] (some [1]) "destroy" false).2 "k").1
      = ⟨[1], some 100, computeCrc32 [1], true⟩ :: rest) :=
  ⟨(c10_isAutoSave_flag 100 200 (fun _ => none) ["k"] "k" 1 [] false (by simp) (by simp)
      (by intro s hs; simp [existingSavesOf] at hs)).1,
   (c10_isAutoSave_flag 100 200 (fun _ => none) ["k"] "k" 1 [] false (by simp) (by simp)
      (by intro s hs; simp [existingSavesOf] at hs)).2.1⟩

end RomScout
